import Mathlib

/-!
# connmonitor: byte counting wrapper around a net.Conn

Shallow embedding of `connmonitor.go`.

* A `*Monitor` is an address into a heap of `Monitor` records, so that several
  wrapped connections can share one Monitor.
* `uint64` fields are natural numbers; `atomic.AddUint64` adds modulo `2^64`,
  and the conversion `uint64(n)` of a Go `int` reduces modulo `2^64`.
* The underlying `net.Conn` is an arbitrary implementation: its methods work on
  an environment `σ` (sockets, random generators, ...), may look at the Monitor
  heap, and may themselves go through this package before they return. The
  fields of a Monitor are unexported, so what such a call can do to the heap is
  what the package lets anyone do: complete Reads and Writes on wrapped
  connections and create Monitors. A call reports these as its `inner` list. A
  wrapper is itself such a connection (`mConn.toConn`).
* A dereference of a pointer with no Monitor behind it (nil) panics: `none`.
* `World.trace` is a ghost log of what the wrapper whose method runs does: its
  call on the underlying connection and its atomic addition, in program order.
-/

namespace connmonitor

/-- Abstract `time.Time` value. -/
abbrev Time := Nat

/-- Contents of a `[]byte`. -/
abbrev Buf := List UInt8

/-- Go `error` value: `none` is nil. -/
abbrev Err := Option String

/-- Number of values of a `uint64`. -/
def twoPow64 : Nat := 2 ^ 64

/-- Go conversion `uint64(n)` of an `int`. -/
def uint64 (n : Int) : Nat := (n % (twoPow64 : Int)).toNat

/-- New value stored by `atomic.AddUint64(addr, delta)` when `*addr = old`. -/
def AddUint64 (old delta : Nat) : Nat := (old + delta) % twoPow64

/-- Monitor is a simple byte counter for read and write operations. -/
structure Monitor where
  atomicReadBytes : Nat
  atomicWriteBytes : Nat
  staticStartTime : Time
deriving DecidableEq, Repr

/-- Something a call on a `net.Conn` did through this package before it
returned: a Read or a Write completed on a connection wrapped against the
Monitor at `m` and reporting `n`, or a Monitor created at time `now`. -/
inductive Inner where
  | Read (m : Nat) (n : Int)
  | Write (m : Nat) (n : Int)
  | NewMonitor (now : Time)
deriving DecidableEq, Repr

/-- Heap after one inner operation. An inner Read or Write adds `uint64(n)` to
the counter, as `mConn.Read` and `mConn.Write` do; one naming an address with no
Monitor behind it cannot have completed and changes nothing. -/
def Inner.apply : Inner → List Monitor → List Monitor
  | Inner.Read m n, heap =>
    match heap[m]? with
    | none => heap
    | some mon =>
      heap.set m { mon with atomicReadBytes := AddUint64 mon.atomicReadBytes (uint64 n) }
  | Inner.Write m n, heap =>
    match heap[m]? with
    | none => heap
    | some mon =>
      heap.set m { mon with atomicWriteBytes := AddUint64 mon.atomicWriteBytes (uint64 n) }
  | Inner.NewMonitor now, heap =>
    heap ++ [{ atomicReadBytes := 0, atomicWriteBytes := 0, staticStartTime := now }]

/-- Heap after the inner operations of a call, in the order they completed. -/
def applyInner : List Inner → List Monitor → List Monitor
  | [], heap => heap
  | e :: es, heap => applyInner es (e.apply heap)

/-- Counts reported by the inner Reads on the Monitor at `m`, in order. -/
def innerReads (m : Nat) : List Inner → List Int
  | [] => []
  | Inner.Read q n :: es => if q = m then n :: innerReads m es else innerReads m es
  | _ :: es => innerReads m es

/-- Counts reported by the inner Writes on the Monitor at `m`, in order. -/
def innerWrites (m : Nat) : List Inner → List Int
  | [] => []
  | Inner.Write q n :: es => if q = m then n :: innerWrites m es else innerWrites m es
  | _ :: es => innerWrites m es

/-- What `Read(b)` on a `net.Conn` leaves: the new environment, what it did
through this package, the buffer contents, `n` and `err`. -/
structure ReadResult (σ : Type) where
  env : σ
  inner : List Inner
  buf : Buf
  n : Int
  err : Err

/-- What `Write(b)` on a `net.Conn` leaves: the new environment, what it did
through this package, `n` and `err`. -/
structure WriteResult (σ : Type) where
  env : σ
  inner : List Inner
  n : Int
  err : Err

/-- The methods of `net.Conn` used by the wrapper: each sees the environment,
the Monitor heap and the buffer. -/
structure Conn (σ : Type) where
  Read : σ → List Monitor → Buf → ReadResult σ
  Write : σ → List Monitor → Buf → WriteResult σ

/-- Counter wrapper: the embedded `net.Conn` and the pointer `m` to its Monitor. -/
structure mConn (σ : Type) where
  Conn : Conn σ
  m : Nat

/-- Ghost log entries. A call on the underlying connection records the buffer
it was given and the Monitor heap at the moment of the call. -/
inductive Event where
  | connRead (b : Buf) (heap : List Monitor)
  | connWrite (b : Buf) (heap : List Monitor)
  | addRead (m : Nat) (delta : Nat)
  | addWrite (m : Nat) (delta : Nat)
deriving DecidableEq, Repr

/-- Program state: environment of the underlying connections, Monitor heap,
ghost log. -/
structure World (σ : Type) where
  env : σ
  heap : List Monitor
  trace : List Event

/-- Creates a Monitor with both counters at zero and `staticStartTime` set to
`now`, the value `time.Now()` returned; yields its address. -/
def NewMonitor {σ : Type} (now : Time) (w : World σ) : World σ × Nat :=
  ({ w with heap := w.heap ++ [{ atomicReadBytes := 0, atomicWriteBytes := 0,
                                 staticStartTime := now }] },
   w.heap.length)

/-- Wraps a `net.Conn` into a `mConn`. -/
def NewMonitoredConn {σ : Type} (conn : Conn σ) (m : Nat) (w : World σ) :
    World σ × mConn σ :=
  (w, { Conn := conn, m := m })

/-- Loads both counters: `(readBytes, writeBytes)`. -/
def Counts {σ : Type} (m : Nat) (w : World σ) : Option (World σ × (Nat × Nat)) :=
  match w.heap[m]? with
  | none => none
  | some mon =>
    let readBytes := mon.atomicReadBytes
    let writeBytes := mon.atomicWriteBytes
    some (w, (readBytes, writeBytes))

/-- Returns `m.staticStartTime`. -/
def StartTime {σ : Type} (m : Nat) (w : World σ) : Option (World σ × Time) :=
  match w.heap[m]? with
  | none => none
  | some mon => some (w, mon.staticStartTime)

/-- Models `atomic.AddUint64(&m.atomicReadBytes, delta)`. -/
def atomicAddReadBytes {σ : Type} (m : Nat) (delta : Nat) (w : World σ) :
    Option (World σ) :=
  match w.heap[m]? with
  | none => none
  | some mon =>
    some { w with
      heap := w.heap.set m
        { mon with atomicReadBytes := AddUint64 mon.atomicReadBytes delta }
      trace := w.trace ++ [Event.addRead m delta] }

/-- Models `atomic.AddUint64(&m.atomicWriteBytes, delta)`. -/
def atomicAddWriteBytes {σ : Type} (m : Nat) (delta : Nat) (w : World σ) :
    Option (World σ) :=
  match w.heap[m]? with
  | none => none
  | some mon =>
    some { w with
      heap := w.heap.set m
        { mon with atomicWriteBytes := AddUint64 mon.atomicWriteBytes delta }
      trace := w.trace ++ [Event.addWrite m delta] }

/-- The call `conn.Read(b)` on the underlying connection: dynamic dispatch into
an arbitrary implementation, which may change the environment and, through this
package, the Monitor heap. -/
def callRead {σ : Type} (conn : Conn σ) (b : Buf) (w : World σ) :
    World σ × Buf × Int × Err :=
  let r := conn.Read w.env w.heap b
  ({ env := r.env, heap := applyInner r.inner w.heap,
     trace := w.trace ++ [Event.connRead b w.heap] },
   r.buf, r.n, r.err)

/-- The call `conn.Write(b)` on the underlying connection. -/
def callWrite {σ : Type} (conn : Conn σ) (b : Buf) (w : World σ) :
    World σ × Int × Err :=
  let r := conn.Write w.env w.heap b
  ({ env := r.env, heap := applyInner r.inner w.heap,
     trace := w.trace ++ [Event.connWrite b w.heap] },
   r.n, r.err)

/-- Body of `(mc *mConn) Read`: result is the buffer contents, `n` and `err`. -/
def mConn.Read {σ : Type} (mc : mConn σ) (b : Buf) (w : World σ) :
    Option (World σ × Buf × Int × Err) :=
  -- n, err = mc.Conn.Read(b)
  let r := callRead mc.Conn b w
  -- atomic.AddUint64(&mc.m.atomicReadBytes, uint64(n))
  match atomicAddReadBytes mc.m (uint64 r.2.2.1) r.1 with
  | none => none
  -- return
  | some w2 => some (w2, r.2.1, r.2.2.1, r.2.2.2)

/-- Body of `(mc *mConn) Write`: result is `n` and `err`. -/
def mConn.Write {σ : Type} (mc : mConn σ) (b : Buf) (w : World σ) :
    Option (World σ × Int × Err) :=
  -- n, err = mc.Conn.Write(b)
  let r := callWrite mc.Conn b w
  -- atomic.AddUint64(&mc.m.atomicWriteBytes, uint64(n))
  match atomicAddWriteBytes mc.m (uint64 r.2.1) r.1 with
  | none => none
  -- return
  | some w2 => some (w2, r.2.1, r.2.2)

/-- A wrapper seen as a `net.Conn` by whoever holds it, for instance by a second
wrapper: `NewMonitoredConn` returns a `net.Conn`. Its Read is the Read of the
connection it embeds followed by its own addition, hence one more inner Read. -/
def mConn.toConn {σ : Type} (mc : mConn σ) : connmonitor.Conn σ where
  Read := fun env heap b =>
    let r := mc.Conn.Read env heap b
    { r with inner := r.inner ++ [Inner.Read mc.m r.n] }
  Write := fun env heap b =>
    let r := mc.Conn.Write env heap b
    { r with inner := r.inner ++ [Inner.Write mc.m r.n] }

/-- Read total of the Monitor at `m`, as reported by `Counts`. -/
def readTotal {σ : Type} (m : Nat) (w : World σ) : Option Nat :=
  (Counts m w).map fun r => r.2.1

/-- Write total of the Monitor at `m`, as reported by `Counts`. -/
def writeTotal {σ : Type} (m : Nat) (w : World σ) : Option Nat :=
  (Counts m w).map fun r => r.2.2

/-- Counter after successive atomic additions of the counts `ns`. -/
def addAll (total : Nat) (ns : List Int) : Nat :=
  ns.foldl (fun t n => AddUint64 t (uint64 n)) total

/-- Wraps every connection of a list against the Monitor at `m`. -/
def wrapAll {σ : Type} (m : Nat) : List (Conn σ) → World σ → World σ × List (mConn σ)
  | [], w => (w, [])
  | conn :: rest, w =>
    let r := NewMonitoredConn conn m w
    let rs := wrapAll m rest r.1
    (rs.1, r.2 :: rs.2)

/-- One completed exchange of a client: a Read or a Write on a connection. -/
inductive IOCall (σ : Type) where
  | Read (conn : Conn σ) (b : Buf)
  | Write (conn : Conn σ) (b : Buf)

/-- The counts `n` returned by the completed calls on connections wrapped
against the Monitor, per direction, latest first. -/
structure Reported where
  reads : List Int
  writes : List Int
deriving DecidableEq, Repr

/-- Runs the exchanges in order, each on its connection wrapped against the
Monitor at `m` with `NewMonitoredConn`, collecting the counts of the calls that
completed on connections wrapped against that Monitor: those the underlying
call made itself, then the call of the exchange. -/
def session {σ : Type} (m : Nat) : List (IOCall σ) → World σ → Reported →
    Option (World σ × Reported)
  | [], w, rep => some (w, rep)
  | IOCall.Read conn b :: rest, w, rep =>
    let c := NewMonitoredConn conn m w
    let inner := (conn.Read w.env w.heap b).inner
    match c.2.Read b c.1 with
    | none => none
    | some r =>
      session m rest r.1
        { reads := r.2.2.1 :: ((innerReads m inner).reverse ++ rep.reads),
          writes := (innerWrites m inner).reverse ++ rep.writes }
  | IOCall.Write conn b :: rest, w, rep =>
    let c := NewMonitoredConn conn m w
    let inner := (conn.Write w.env w.heap b).inner
    match c.2.Write b c.1 with
    | none => none
    | some r =>
      session m rest r.1
        { reads := (innerReads m inner).reverse ++ rep.reads,
          writes := r.2.1 :: ((innerWrites m inner).reverse ++ rep.writes) }

/-- Any operation of the package. -/
inductive Call (σ : Type) where
  | NewMonitor (now : Time)
  | NewMonitoredConn (conn : Conn σ) (m : Nat)
  | Read (mc : mConn σ) (b : Buf)
  | Write (mc : mConn σ) (b : Buf)
  | Counts (m : Nat)
  | StartTime (m : Nat)

/-- State after one operation; `none` when it panics. -/
def Call.exec {σ : Type} : Call σ → World σ → Option (World σ)
  | Call.NewMonitor now, w => some (connmonitor.NewMonitor now w).1
  | Call.NewMonitoredConn conn m, w => some (connmonitor.NewMonitoredConn conn m w).1
  | Call.Read mc b, w => (mc.Read b w).map fun r => r.1
  | Call.Write mc b, w => (mc.Write b w).map fun r => r.1
  | Call.Counts m, w => (connmonitor.Counts m w).map fun r => r.1
  | Call.StartTime m, w => (connmonitor.StartTime m w).map fun r => r.1

/-- State after a sequence of operations. -/
def run {σ : Type} : List (Call σ) → World σ → Option (World σ)
  | [], w => some w
  | c :: cs, w =>
    match c.exec w with
    | none => none
    | some w1 => run cs w1

/-! ## Concrete connections and states used as examples -/

/-- A connection that transfers nothing, does nothing through this package and
always reports `n` and `err`; its environment counts the calls it received. -/
def fixedConn (n : Int) (err : Err) : Conn Nat where
  Read := fun calls _ b => { env := calls + 1, inner := [], buf := b, n := n, err := err }
  Write := fun calls _ _ => { env := calls + 1, inner := [], n := n, err := err }

/-- A connection reporting 5 bytes whose Read first writes 3 bytes, and whose
Write first reads 3 bytes, through a connection wrapped against the Monitor at
address 0. -/
def crossConn : Conn Nat where
  Read := fun calls _ b =>
    { env := calls + 1, inner := [Inner.Write 0 3], buf := b, n := 5, err := none }
  Write := fun calls _ _ =>
    { env := calls + 1, inner := [Inner.Read 0 3], n := 5, err := none }

/-- No Monitor allocated, nothing called yet. -/
def emptyWorld : World Nat := { env := 0, heap := [], trace := [] }

/-- One Monitor, created at time 42, at address 0. -/
def freshWorld : World Nat := (NewMonitor 42 emptyWorld).1

/-- One Monitor whose two counters hold the largest `uint64`. -/
def fullWorld : World Nat :=
  { env := 0
    heap := [{ atomicReadBytes := 2 ^ 64 - 1, atomicWriteBytes := 2 ^ 64 - 1,
               staticStartTime := 42 }]
    trace := [] }

/-- One Monitor holding `(10, 20)`. -/
def busyWorld : World Nat :=
  { env := 0
    heap := [{ atomicReadBytes := 10, atomicWriteBytes := 20, staticStartTime := 42 }]
    trace := [] }

/-- Largest Go `int` on a 64-bit platform. -/
def maxInt : Int := 2 ^ 63 - 1

/-- A wrapped connection on the Monitor at address 0 whose calls report 7 bytes
together with an error. -/
def partialConn : mConn Nat := { Conn := fixedConn 7 (some "EOF"), m := 0 }

/-- A wrapped connection on the Monitor at address 0 whose calls report 1 byte. -/
def oneByteConn : mConn Nat := { Conn := fixedConn 1 none, m := 0 }

/-- A wrapped connection on the Monitor at address 0 whose calls report 1000
bytes and no error. -/
def kiloConn : mConn Nat := { Conn := fixedConn 1000 none, m := 0 }

/-- A wrapped connection on the Monitor at address 0 whose calls report 5 bytes
and no error. -/
def fiveByteConn : mConn Nat := { Conn := fixedConn 5 none, m := 0 }

/-- The wrapper `fiveByteConn` wrapped once more against the same Monitor. -/
def nestedConn : mConn Nat := { Conn := fiveByteConn.toConn, m := 0 }

/-- A wrapper on the Monitor at address 0 around `crossConn`. -/
def crossMonitored : mConn Nat := { Conn := crossConn, m := 0 }

/-- Three Reads, each reporting the largest `int`. -/
def overflowCalls : List (IOCall Nat) :=
  [IOCall.Read (fixedConn maxInt none) [0], IOCall.Read (fixedConn maxInt none) [0],
   IOCall.Read (fixedConn maxInt none) [0]]

/-- Two Reads and one Write on three connections. -/
def mixedCalls : List (IOCall Nat) :=
  [IOCall.Read (fixedConn 7 (some "EOF")) [1, 2, 3], IOCall.Write (fixedConn 1000 none) [4],
   IOCall.Read (fixedConn 5 none) [0]]

/-- A Read on a doubly wrapped connection and a Write on a connection that
reads through a wrapper itself. -/
def nestedCalls : List (IOCall Nat) :=
  [IOCall.Read fiveByteConn.toConn [0], IOCall.Write crossConn [0]]

/-- A sequence using every operation, on two Monitors, with a doubly wrapped
connection. -/
def sampleCalls : List (Call Nat) :=
  [Call.NewMonitoredConn (fixedConn 7 none) 0, Call.Read partialConn [1, 2, 3],
   Call.Write oneByteConn [0], Call.Counts 0, Call.NewMonitor 99,
   Call.Read { Conn := fixedConn 5 none, m := 1 } [0], Call.Read nestedConn [0],
   Call.StartTime 0]

/-! ## Arithmetic of the counters -/

theorem twoPow64_ne_zero : (twoPow64 : Int) ≠ 0 := by
  unfold twoPow64
  norm_num

theorem uint64_of_nonneg (n : Int) (h : 0 ≤ n) : uint64 n = n.toNat % twoPow64 := by
  unfold uint64
  obtain ⟨k, rfl⟩ := Int.eq_ofNat_of_zero_le h
  have hk : ((k : Int) % (twoPow64 : Int)) = ((k % twoPow64 : Nat) : Int) := by
    norm_cast
  rw [hk, Int.toNat_ofNat, Int.toNat_ofNat]

theorem AddUint64_uint64 (r : Nat) (n : Int) (h : 0 ≤ n) :
    AddUint64 r (uint64 n) = (r + n.toNat) % twoPow64 := by
  rw [uint64_of_nonneg n h]
  unfold AddUint64
  exact Nat.add_mod_mod r n.toNat twoPow64

theorem uint64_cast (a : Int) : ((uint64 a : Nat) : Int) = a % 2 ^ 64 := by
  unfold uint64
  rw [Int.toNat_of_nonneg (Int.emod_nonneg a twoPow64_ne_zero)]
  unfold twoPow64
  norm_num

theorem AddUint64_uint64_add (a b : Int) :
    AddUint64 (uint64 a) (uint64 b) = uint64 (a + b) := by
  unfold AddUint64 uint64
  have ha := Int.toNat_of_nonneg (Int.emod_nonneg a twoPow64_ne_zero)
  have hb := Int.toNat_of_nonneg (Int.emod_nonneg b twoPow64_ne_zero)
  have hab := Int.toNat_of_nonneg (Int.emod_nonneg (a + b) twoPow64_ne_zero)
  zify
  rw [ha, hb, hab]
  exact (Int.add_emod a b _).symm

theorem AddUint64_cast (r : Nat) (n : Int) :
    AddUint64 r (uint64 n) = uint64 ((r : Int) + n) := by
  unfold AddUint64 uint64
  have hn := Int.toNat_of_nonneg (Int.emod_nonneg n twoPow64_ne_zero)
  have hrn := Int.toNat_of_nonneg (Int.emod_nonneg ((r : Int) + n) twoPow64_ne_zero)
  zify
  rw [hn, hrn]
  exact Int.add_emod_emod _ _ _

theorem addAll_cons (r : Nat) (x : Int) (xs : List Int) :
    addAll r (x :: xs) = addAll (AddUint64 r (uint64 x)) xs := rfl

theorem addAll_append_one (r : Nat) (ns : List Int) (n : Int) :
    addAll r (ns ++ [n]) = AddUint64 (addAll r ns) (uint64 n) := by
  unfold addAll
  rw [List.foldl_append]
  rfl

theorem addAll_uint64 (ns : List Int) :
    ∀ s : Int, addAll (uint64 s) ns = uint64 (s + ns.sum) := by
  induction ns with
  | nil =>
    intro s
    simp [addAll]
  | cons x xs ih =>
    intro s
    rw [addAll_cons, AddUint64_uint64_add, ih, List.sum_cons, add_assoc]

theorem add_after_addAll (r : Nat) (ns : List Int) (n : Int) :
    AddUint64 (addAll r ns) (uint64 n) = uint64 ((r : Int) + ns.sum + n) := by
  cases ns with
  | nil =>
    rw [AddUint64_cast]
    simp [addAll]
  | cons x xs =>
    rw [addAll_cons, AddUint64_cast r x, addAll_uint64, AddUint64_uint64_add, List.sum_cons,
      add_assoc (r : Int) x]

theorem addAll_no_wrap (ns : List Int) :
    ∀ r : Nat, (∀ x ∈ ns, 0 ≤ x) → (r : Int) + ns.sum < 2 ^ 64 →
      ((addAll r ns : Nat) : Int) = (r : Int) + ns.sum := by
  induction ns with
  | nil =>
    intro r _ _
    simp [addAll]
  | cons x xs ih =>
    intro r hpos hlt
    have hx : 0 ≤ x := hpos x (List.mem_cons_self x xs)
    have hxs : ∀ y ∈ xs, 0 ≤ y := fun y hy => hpos y (List.mem_cons_of_mem x hy)
    have hsum : 0 ≤ xs.sum := List.sum_nonneg hxs
    rw [List.sum_cons] at hlt
    have hstep : ((AddUint64 r (uint64 x) : Nat) : Int) = (r : Int) + x := by
      rw [AddUint64_cast, uint64_cast]
      exact Int.emod_eq_of_lt (by omega) (by omega)
    rw [addAll_cons, ih _ hxs (by rw [hstep]; omega), hstep, List.sum_cons]
    ring

/-! ## The heap across an underlying call -/

theorem getElem?_set_same (l : List Monitor) (p : Nat) (mon x : Monitor)
    (h : l[p]? = some mon) : (l.set p x)[p]? = some x := by
  have hp : p < l.length := by
    by_contra hc
    rw [List.getElem?_eq_none (Nat.le_of_not_lt hc)] at h
    cases h
  simp [List.getElem?_set, hp]

theorem lookup_lt (l : List Monitor) (p : Nat) (mon : Monitor) (h : l[p]? = some mon) :
    p < l.length := by
  by_contra hc
  rw [List.getElem?_eq_none (Nat.le_of_not_lt hc)] at h
  cases h

theorem applyInner_lookup (m : Nat) (es : List Inner) :
    ∀ (heap : List Monitor) (mon : Monitor), heap[m]? = some mon →
      (applyInner es heap)[m]? = some
        { atomicReadBytes := addAll mon.atomicReadBytes (innerReads m es),
          atomicWriteBytes := addAll mon.atomicWriteBytes (innerWrites m es),
          staticStartTime := mon.staticStartTime } := by
  induction es with
  | nil =>
    intro heap mon hm
    simpa [applyInner, innerReads, innerWrites, addAll] using hm
  | cons e rest ih =>
    intro heap mon hm
    cases e with
    | Read q n =>
      by_cases hq : q = m
      · subst hq
        have h1 := getElem?_set_same heap q mon
          { mon with atomicReadBytes := AddUint64 mon.atomicReadBytes (uint64 n) } hm
        have h2 := ih _ _ h1
        simpa [applyInner, Inner.apply, hm, innerReads, innerWrites, addAll_cons] using h2
      · cases hq2 : heap[q]? with
        | none =>
          have h2 := ih heap mon hm
          simpa [applyInner, Inner.apply, hq2, innerReads, innerWrites, hq] using h2
        | some monq =>
          have h1 : (heap.set q
              { monq with atomicReadBytes := AddUint64 monq.atomicReadBytes (uint64 n) })[m]? =
              some mon := by
            rw [List.getElem?_set_ne hq]
            exact hm
          have h2 := ih _ mon h1
          simpa [applyInner, Inner.apply, hq2, innerReads, innerWrites, hq] using h2
    | Write q n =>
      by_cases hq : q = m
      · subst hq
        have h1 := getElem?_set_same heap q mon
          { mon with atomicWriteBytes := AddUint64 mon.atomicWriteBytes (uint64 n) } hm
        have h2 := ih _ _ h1
        simpa [applyInner, Inner.apply, hm, innerReads, innerWrites, addAll_cons] using h2
      · cases hq2 : heap[q]? with
        | none =>
          have h2 := ih heap mon hm
          simpa [applyInner, Inner.apply, hq2, innerReads, innerWrites, hq] using h2
        | some monq =>
          have h1 : (heap.set q
              { monq with atomicWriteBytes := AddUint64 monq.atomicWriteBytes (uint64 n) })[m]? =
              some mon := by
            rw [List.getElem?_set_ne hq]
            exact hm
          have h2 := ih _ mon h1
          simpa [applyInner, Inner.apply, hq2, innerReads, innerWrites, hq] using h2
    | NewMonitor now =>
      have h1 : (heap ++ [Monitor.mk 0 0 now])[m]? = some mon := by
        rw [List.getElem?_append_left (lookup_lt heap m mon hm)]
        exact hm
      have h2 := ih _ mon h1
      simpa [applyInner, Inner.apply, innerReads, innerWrites] using h2

theorem Read_eq {σ : Type} (mc : mConn σ) (b : Buf) (w : World σ) (mon : Monitor)
    (hm : w.heap[mc.m]? = some mon) :
    mc.Read b w = some
      ({ env := (mc.Conn.Read w.env w.heap b).env,
         heap := (applyInner (mc.Conn.Read w.env w.heap b).inner w.heap).set mc.m
           { atomicReadBytes := addAll mon.atomicReadBytes (innerReads mc.m (mc.Conn.Read w.env w.heap b).inner ++ [(mc.Conn.Read w.env w.heap b).n]),
             atomicWriteBytes := addAll mon.atomicWriteBytes (innerWrites mc.m (mc.Conn.Read w.env w.heap b).inner),
             staticStartTime := mon.staticStartTime },
         trace := w.trace ++ [Event.connRead b w.heap,
           Event.addRead mc.m (uint64 (mc.Conn.Read w.env w.heap b).n)] },
       ((mc.Conn.Read w.env w.heap b).buf, (mc.Conn.Read w.env w.heap b).n,
         (mc.Conn.Read w.env w.heap b).err)) := by
  have h := applyInner_lookup mc.m (mc.Conn.Read w.env w.heap b).inner w.heap mon hm
  simp [mConn.Read, callRead, atomicAddReadBytes, h, addAll_append_one]

theorem Write_eq {σ : Type} (mc : mConn σ) (b : Buf) (w : World σ) (mon : Monitor)
    (hm : w.heap[mc.m]? = some mon) :
    mc.Write b w = some
      ({ env := (mc.Conn.Write w.env w.heap b).env,
         heap := (applyInner (mc.Conn.Write w.env w.heap b).inner w.heap).set mc.m
           { atomicReadBytes := addAll mon.atomicReadBytes (innerReads mc.m (mc.Conn.Write w.env w.heap b).inner),
             atomicWriteBytes := addAll mon.atomicWriteBytes (innerWrites mc.m (mc.Conn.Write w.env w.heap b).inner ++ [(mc.Conn.Write w.env w.heap b).n]),
             staticStartTime := mon.staticStartTime },
         trace := w.trace ++ [Event.connWrite b w.heap,
           Event.addWrite mc.m (uint64 (mc.Conn.Write w.env w.heap b).n)] },
       ((mc.Conn.Write w.env w.heap b).n, (mc.Conn.Write w.env w.heap b).err)) := by
  have h := applyInner_lookup mc.m (mc.Conn.Write w.env w.heap b).inner w.heap mon hm
  simp [mConn.Write, callWrite, atomicAddWriteBytes, h, addAll_append_one]

theorem counts_set {σ : Type} (heap : List Monitor) (w1 : World σ) (p : Nat) (mon x : Monitor)
    (hm : heap[p]? = some mon) (hh : w1.heap = heap.set p x) :
    Counts p w1 = some (w1, (x.atomicReadBytes, x.atomicWriteBytes)) := by
  have hx : w1.heap[p]? = some x := by
    rw [hh]
    exact getElem?_set_same heap p mon x hm
  simp [Counts, hx]

theorem applyInner_append_one (e : Inner) (es : List Inner) :
    ∀ heap : List Monitor, applyInner (es ++ [e]) heap = e.apply (applyInner es heap) := by
  induction es with
  | nil => intro heap; rfl
  | cons x xs ih =>
    intro heap
    exact ih (x.apply heap)

/-- Calling a wrapper through `mConn.toConn` leaves the environment, the heap
and the result that its own `Read` leaves. -/
theorem toConn_Read {σ : Type} (mc : mConn σ) (b : Buf) (w : World σ) (mon : Monitor)
    (hm : w.heap[mc.m]? = some mon) :
    (mc.Read b w).map (fun r => (r.1.env, r.1.heap, r.2)) =
      some ((callRead mc.toConn b w).1.env, (callRead mc.toConn b w).1.heap,
        (callRead mc.toConn b w).2) := by
  have h := applyInner_lookup mc.m (mc.Conn.Read w.env w.heap b).inner w.heap mon hm
  simp [mConn.Read, callRead, atomicAddReadBytes, mConn.toConn, applyInner_append_one,
    Inner.apply, h]

/-- Calling a wrapper through `mConn.toConn` leaves the environment, the heap
and the result that its own `Write` leaves. -/
theorem toConn_Write {σ : Type} (mc : mConn σ) (b : Buf) (w : World σ) (mon : Monitor)
    (hm : w.heap[mc.m]? = some mon) :
    (mc.Write b w).map (fun r => (r.1.env, r.1.heap, r.2)) =
      some ((callWrite mc.toConn b w).1.env, (callWrite mc.toConn b w).1.heap,
        (callWrite mc.toConn b w).2) := by
  have h := applyInner_lookup mc.m (mc.Conn.Write w.env w.heap b).inner w.heap mon hm
  simp [mConn.Write, callWrite, atomicAddWriteBytes, mConn.toConn, applyInner_append_one,
    Inner.apply, h]

/-! ## Pass-through of the underlying result -/

/-- C1: `mConn.Read(b)` calls the underlying `Conn.Read` exactly once, with the
same `b`, and returns exactly what that call returned (buffer contents, `n`,
`err`); likewise `mConn.Write(b)` with `Conn.Write`. The environment of the
underlying connection advances by that single call and the log shows one call
followed by one atomic addition: nothing is changed, wrapped, suppressed or
retried. -/
theorem read_write_pass_through {σ : Type} (mc : mConn σ) (b : Buf) (w : World σ)
    (mon : Monitor) (hm : w.heap[mc.m]? = some mon) :
    (∃ w1, mc.Read b w = some (w1, ((mc.Conn.Read w.env w.heap b).buf,
          (mc.Conn.Read w.env w.heap b).n, (mc.Conn.Read w.env w.heap b).err)) ∧
        w1.env = (mc.Conn.Read w.env w.heap b).env ∧
        w1.trace = w.trace ++ [Event.connRead b w.heap,
          Event.addRead mc.m (uint64 (mc.Conn.Read w.env w.heap b).n)]) ∧
    (∃ w2, mc.Write b w = some (w2, ((mc.Conn.Write w.env w.heap b).n,
          (mc.Conn.Write w.env w.heap b).err)) ∧
        w2.env = (mc.Conn.Write w.env w.heap b).env ∧
        w2.trace = w.trace ++ [Event.connWrite b w.heap,
          Event.addWrite mc.m (uint64 (mc.Conn.Write w.env w.heap b).n)]) :=
  ⟨⟨_, Read_eq mc b w mon hm, rfl, rfl⟩, ⟨_, Write_eq mc b w mon hm, rfl, rfl⟩⟩

/-- Witness of C1: a connection reporting 7 bytes and an error, on a fresh
Monitor. -/
theorem read_write_pass_through_witness :
    freshWorld.heap[partialConn.m]? = some ⟨0, 0, 42⟩ ∧
    (∃ w1, partialConn.Read [1, 2, 3] freshWorld = some (w1, ([1, 2, 3], 7, some "EOF")) ∧
        w1.env = 1 ∧
        w1.trace = [Event.connRead [1, 2, 3] [⟨0, 0, 42⟩], Event.addRead 0 7]) ∧
    (∃ w2, partialConn.Write [1, 2, 3] freshWorld = some (w2, (7, some "EOF")) ∧
        w2.env = 1 ∧
        w2.trace = [Event.connWrite [1, 2, 3] [⟨0, 0, 42⟩], Event.addWrite 0 7]) :=
  ⟨rfl, read_write_pass_through partialConn [1, 2, 3] freshWorld ⟨0, 0, 42⟩ rfl⟩

/-! ## The totals after one call -/

/-- C2 as stated fails, in two ways. With the read total at `2^64 - 1`, a Read
reporting one byte leaves the read total at 0, not at `2^64 - 1 + 1`. On a fresh
Monitor, a Read on a doubly wrapped connection whose underlying call reports 5
leaves the read total at 10, not at `0 + 5`. -/
theorem read_total_plus_n_counterexample :
    (∃ w1, oneByteConn.Read [0] fullWorld = some (w1, ([0], 1, none)) ∧
      readTotal 0 fullWorld = some (2 ^ 64 - 1) ∧
      readTotal 0 w1 = some 0 ∧
      readTotal 0 w1 ≠ some (2 ^ 64 - 1 + 1)) ∧
    (∃ w1, nestedConn.Read [0] freshWorld = some (w1, ([0], 5, none)) ∧
      readTotal 0 freshWorld = some 0 ∧
      readTotal 0 w1 = some 10 ∧
      readTotal 0 w1 ≠ some (0 + 5)) :=
  ⟨⟨_, rfl, rfl, rfl, by decide⟩, ⟨_, rfl, rfl, rfl, by decide⟩⟩

/-- C2 (amended): for a Monitor with read total `r` and write total `w`, when
the underlying call reports `n >= 0` with any `err`, after `mConn.Read(b)` the
read total is `(r + s + n) mod 2^64`, where `s` is the sum of the counts of the
Reads that the underlying call itself completed on connections wrapped against
the same Monitor; when it completed none, the read total is `(r + n) mod 2^64`,
hence `r + n` whenever that is below `2^64`. Likewise for `mConn.Write(b)` and
the write total. The amount added by the wrapper is the reported `n`, whatever
`len(b)` and `err` are. -/
theorem totals_add_reported_mod {σ : Type} (mc : mConn σ) (b : Buf) (w : World σ)
    (mon : Monitor) (hm : w.heap[mc.m]? = some mon) :
    (∀ r, mc.Conn.Read w.env w.heap b = r → 0 ≤ r.n →
      ∃ w1 t, mc.Read b w = some (w1, (r.buf, r.n, r.err)) ∧
        readTotal mc.m w1 = some t ∧
        (t : Int) = ((mon.atomicReadBytes : Int) + (innerReads mc.m r.inner).sum + r.n) % 2 ^ 64 ∧
        (innerReads mc.m r.inner = [] → t = (mon.atomicReadBytes + r.n.toNat) % 2 ^ 64) ∧
        (innerReads mc.m r.inner = [] → mon.atomicReadBytes + r.n.toNat < 2 ^ 64 →
          t = mon.atomicReadBytes + r.n.toNat)) ∧
    (∀ r, mc.Conn.Write w.env w.heap b = r → 0 ≤ r.n →
      ∃ w1 t, mc.Write b w = some (w1, (r.n, r.err)) ∧
        writeTotal mc.m w1 = some t ∧
        (t : Int) = ((mon.atomicWriteBytes : Int) + (innerWrites mc.m r.inner).sum + r.n) % 2 ^ 64 ∧
        (innerWrites mc.m r.inner = [] → t = (mon.atomicWriteBytes + r.n.toNat) % 2 ^ 64) ∧
        (innerWrites mc.m r.inner = [] → mon.atomicWriteBytes + r.n.toNat < 2 ^ 64 →
          t = mon.atomicWriteBytes + r.n.toNat)) := by
  have h64 : twoPow64 = 2 ^ 64 := rfl
  constructor
  · intro r hr hn
    subst hr
    have hl := applyInner_lookup mc.m (mc.Conn.Read w.env w.heap b).inner w.heap mon hm
    have hempty : innerReads mc.m (mc.Conn.Read w.env w.heap b).inner = [] →
        addAll mon.atomicReadBytes (innerReads mc.m (mc.Conn.Read w.env w.heap b).inner ++
          [(mc.Conn.Read w.env w.heap b).n]) =
        (mon.atomicReadBytes + (mc.Conn.Read w.env w.heap b).n.toNat) % 2 ^ 64 := by
      intro he
      rw [he, List.nil_append, addAll_cons, AddUint64_uint64 _ _ hn, h64]
      rfl
    refine ⟨_, _, Read_eq mc b w mon hm, ?_, ?_, hempty, ?_⟩
    · unfold readTotal
      rw [counts_set _ _ mc.m _ _ hl rfl]
      rfl
    · rw [addAll_append_one, add_after_addAll, uint64_cast]
    · intro he hlt
      rw [hempty he, Nat.mod_eq_of_lt hlt]
  · intro r hr hn
    subst hr
    have hl := applyInner_lookup mc.m (mc.Conn.Write w.env w.heap b).inner w.heap mon hm
    have hempty : innerWrites mc.m (mc.Conn.Write w.env w.heap b).inner = [] →
        addAll mon.atomicWriteBytes (innerWrites mc.m (mc.Conn.Write w.env w.heap b).inner ++
          [(mc.Conn.Write w.env w.heap b).n]) =
        (mon.atomicWriteBytes + (mc.Conn.Write w.env w.heap b).n.toNat) % 2 ^ 64 := by
      intro he
      rw [he, List.nil_append, addAll_cons, AddUint64_uint64 _ _ hn, h64]
      rfl
    refine ⟨_, _, Write_eq mc b w mon hm, ?_, ?_, hempty, ?_⟩
    · unfold writeTotal
      rw [counts_set _ _ mc.m _ _ hl rfl]
      rfl
    · rw [addAll_append_one, add_after_addAll, uint64_cast]
    · intro he hlt
      rw [hempty he, Nat.mod_eq_of_lt hlt]

/-- Witness of C2, on a Monitor holding `(10, 20)`: 7 bytes reported together
with an error, buffer of length 3, bring the read total to 17, resp. the write
total to 27. -/
theorem totals_add_reported_mod_witness :
    busyWorld.heap[partialConn.m]? = some ⟨10, 20, 42⟩ ∧
    (0 : Int) ≤ (partialConn.Conn.Read busyWorld.env busyWorld.heap [1, 2, 3]).n ∧
    (0 : Int) ≤ (partialConn.Conn.Write busyWorld.env busyWorld.heap [1, 2, 3]).n ∧
    innerReads 0 (partialConn.Conn.Read busyWorld.env busyWorld.heap [1, 2, 3]).inner = [] ∧
    innerWrites 0 (partialConn.Conn.Write busyWorld.env busyWorld.heap [1, 2, 3]).inner = [] ∧
    10 + (7 : Int).toNat < 2 ^ 64 ∧ 20 + (7 : Int).toNat < 2 ^ 64 ∧
    (∃ w1 t, partialConn.Read [1, 2, 3] busyWorld = some (w1, ([1, 2, 3], 7, some "EOF")) ∧
        readTotal 0 w1 = some t ∧ t = 17) ∧
    (∃ w1 t, partialConn.Write [1, 2, 3] busyWorld = some (w1, (7, some "EOF")) ∧
        writeTotal 0 w1 = some t ∧ t = 27) := by
  have h := totals_add_reported_mod partialConn [1, 2, 3] busyWorld ⟨10, 20, 42⟩ rfl
  obtain ⟨w1, t1, h1, h2, _, _, h3⟩ := h.1 _ rfl (by decide)
  obtain ⟨w2, t2, h4, h5, _, _, h6⟩ := h.2 _ rfl (by decide)
  exact ⟨rfl, by decide, by decide, rfl, rfl, by decide, by decide,
    ⟨w1, t1, h1, h2, h3 rfl (by decide)⟩, ⟨w2, t2, h4, h5, h6 rfl (by decide)⟩⟩

/-! ## Monotonicity -/

theorem addAll_ge (r : Nat) (ns : List Int) (hpos : ∀ x ∈ ns, 0 ≤ x)
    (hlt : (r : Int) + ns.sum < 2 ^ 64) : r ≤ addAll r ns := by
  have h := addAll_no_wrap ns r hpos hlt
  have hsum : 0 ≤ ns.sum := List.sum_nonneg hpos
  omega

/-- C6 as stated fails: with the write total at `2^64 - 1`, a Write reporting
one byte leaves the write total at 0, below its value before the call. -/
theorem write_total_decreases_counterexample :
    ∃ w1 before after, oneByteConn.Write [0] fullWorld = some (w1, (1, none)) ∧
      writeTotal 0 fullWorld = some before ∧
      writeTotal 0 w1 = some after ∧
      after < before :=
  ⟨_, 2 ^ 64 - 1, 0, rfl, rfl, rfl, by decide⟩

/-- C6 (amended): a Read or Write on a connection wrapped against a Monitor
leaves both totals of the Monitor at least as large as before, provided no
addition made during the call wraps: every count added to the Monitor during
the call (the `n` of the underlying call and the counts of the Reads and Writes
that the underlying call itself completed on connections wrapped against the
same Monitor) is `>= 0`, and each total plus the counts added to it stays below
`2^64`. -/
theorem totals_monotone_below_wrap {σ : Type} (mc : mConn σ) (b : Buf) (w : World σ)
    (mon : Monitor) (hm : w.heap[mc.m]? = some mon) :
    (∀ r, mc.Conn.Read w.env w.heap b = r →
      (∀ x ∈ innerReads mc.m r.inner ++ [r.n], 0 ≤ x) →
      (∀ x ∈ innerWrites mc.m r.inner, 0 ≤ x) →
      (mon.atomicReadBytes : Int) + (innerReads mc.m r.inner ++ [r.n]).sum < 2 ^ 64 →
      (mon.atomicWriteBytes : Int) + (innerWrites mc.m r.inner).sum < 2 ^ 64 →
      ∃ w1 r1 wr1, mc.Read b w = some (w1, (r.buf, r.n, r.err)) ∧
        Counts mc.m w1 = some (w1, (r1, wr1)) ∧
        mon.atomicReadBytes ≤ r1 ∧ mon.atomicWriteBytes ≤ wr1) ∧
    (∀ r, mc.Conn.Write w.env w.heap b = r →
      (∀ x ∈ innerReads mc.m r.inner, 0 ≤ x) →
      (∀ x ∈ innerWrites mc.m r.inner ++ [r.n], 0 ≤ x) →
      (mon.atomicReadBytes : Int) + (innerReads mc.m r.inner).sum < 2 ^ 64 →
      (mon.atomicWriteBytes : Int) + (innerWrites mc.m r.inner ++ [r.n]).sum < 2 ^ 64 →
      ∃ w1 r1 wr1, mc.Write b w = some (w1, (r.n, r.err)) ∧
        Counts mc.m w1 = some (w1, (r1, wr1)) ∧
        mon.atomicReadBytes ≤ r1 ∧ mon.atomicWriteBytes ≤ wr1) := by
  constructor
  · intro r hr hpr hpw hlr hlw
    subst hr
    have hl := applyInner_lookup mc.m (mc.Conn.Read w.env w.heap b).inner w.heap mon hm
    exact ⟨_, _, _, Read_eq mc b w mon hm, counts_set _ _ mc.m _ _ hl rfl,
      addAll_ge _ _ hpr hlr, addAll_ge _ _ hpw hlw⟩
  · intro r hr hpr hpw hlr hlw
    subst hr
    have hl := applyInner_lookup mc.m (mc.Conn.Write w.env w.heap b).inner w.heap mon hm
    exact ⟨_, _, _, Write_eq mc b w mon hm, counts_set _ _ mc.m _ _ hl rfl,
      addAll_ge _ _ hpr hlr, addAll_ge _ _ hpw hlw⟩

/-- Witness of C6, on a Monitor holding `(10, 20)`: a Read on a doubly wrapped
connection reporting 5 gives `(20, 20)`; a Write on a connection reporting 5
that itself reads 3 bytes through a wrapper gives `(13, 25)`. -/
theorem totals_monotone_below_wrap_witness :
    busyWorld.heap[0]? = some ⟨10, 20, 42⟩ ∧
    (∀ x ∈ innerReads 0 (nestedConn.Conn.Read busyWorld.env busyWorld.heap [0]).inner ++
      [(nestedConn.Conn.Read busyWorld.env busyWorld.heap [0]).n], 0 ≤ x) ∧
    (∀ x ∈ innerWrites 0 (nestedConn.Conn.Read busyWorld.env busyWorld.heap [0]).inner,
      0 ≤ x) ∧
    (10 : Int) + (innerReads 0 (nestedConn.Conn.Read busyWorld.env busyWorld.heap [0]).inner ++
      [(nestedConn.Conn.Read busyWorld.env busyWorld.heap [0]).n]).sum < 2 ^ 64 ∧
    (20 : Int) + (innerWrites 0
      (nestedConn.Conn.Read busyWorld.env busyWorld.heap [0]).inner).sum < 2 ^ 64 ∧
    (∀ x ∈ innerReads 0 (crossConn.Write busyWorld.env busyWorld.heap [0]).inner, 0 ≤ x) ∧
    (∀ x ∈ innerWrites 0 (crossConn.Write busyWorld.env busyWorld.heap [0]).inner ++
      [(crossConn.Write busyWorld.env busyWorld.heap [0]).n], 0 ≤ x) ∧
    (10 : Int) + (innerReads 0
      (crossConn.Write busyWorld.env busyWorld.heap [0]).inner).sum < 2 ^ 64 ∧
    (20 : Int) + (innerWrites 0 (crossConn.Write busyWorld.env busyWorld.heap [0]).inner ++
      [(crossConn.Write busyWorld.env busyWorld.heap [0]).n]).sum < 2 ^ 64 ∧
    (nestedConn.Read [0] busyWorld).map (fun r => r.1.heap) = some [⟨20, 20, 42⟩] ∧
    (crossMonitored.Write [0] busyWorld).map (fun r => r.1.heap) = some [⟨13, 25, 42⟩] ∧
    (∃ w1 r1 wr1, nestedConn.Read [0] busyWorld = some (w1, ([0], 5, none)) ∧
        Counts 0 w1 = some (w1, (r1, wr1)) ∧ 10 ≤ r1 ∧ 20 ≤ wr1) ∧
    (∃ w1 r1 wr1, crossMonitored.Write [0] busyWorld = some (w1, (5, none)) ∧
        Counts 0 w1 = some (w1, (r1, wr1)) ∧ 10 ≤ r1 ∧ 20 ≤ wr1) := by
  have hR1 : ∀ x ∈ innerReads 0 (nestedConn.Conn.Read busyWorld.env busyWorld.heap [0]).inner ++
      [(nestedConn.Conn.Read busyWorld.env busyWorld.heap [0]).n], 0 ≤ x := by decide
  have hR2 : ∀ x ∈ innerWrites 0
      (nestedConn.Conn.Read busyWorld.env busyWorld.heap [0]).inner, 0 ≤ x := by decide
  have hR3 : (10 : Int) + (innerReads 0
      (nestedConn.Conn.Read busyWorld.env busyWorld.heap [0]).inner ++
      [(nestedConn.Conn.Read busyWorld.env busyWorld.heap [0]).n]).sum < 2 ^ 64 := by decide
  have hR4 : (20 : Int) + (innerWrites 0
      (nestedConn.Conn.Read busyWorld.env busyWorld.heap [0]).inner).sum < 2 ^ 64 := by decide
  have hW1 : ∀ x ∈ innerReads 0 (crossConn.Write busyWorld.env busyWorld.heap [0]).inner,
      0 ≤ x := by decide
  have hW2 : ∀ x ∈ innerWrites 0 (crossConn.Write busyWorld.env busyWorld.heap [0]).inner ++
      [(crossConn.Write busyWorld.env busyWorld.heap [0]).n], 0 ≤ x := by decide
  have hW3 : (10 : Int) + (innerReads 0
      (crossConn.Write busyWorld.env busyWorld.heap [0]).inner).sum < 2 ^ 64 := by decide
  have hW4 : (20 : Int) + (innerWrites 0
      (crossConn.Write busyWorld.env busyWorld.heap [0]).inner ++
      [(crossConn.Write busyWorld.env busyWorld.heap [0]).n]).sum < 2 ^ 64 := by decide
  exact ⟨rfl, hR1, hR2, hR3, hR4, hW1, hW2, hW3, hW4, rfl, rfl,
    (totals_monotone_below_wrap nestedConn [0] busyWorld ⟨10, 20, 42⟩ rfl).1 _ rfl
      hR1 hR2 hR3 hR4,
    (totals_monotone_below_wrap crossMonitored [0] busyWorld ⟨10, 20, 42⟩ rfl).2 _ rfl
      hW1 hW2 hW3 hW4⟩

/-! ## Frame -/

/-- C10 as stated fails: on a fresh Monitor, a Read on a connection whose Read
itself writes 3 bytes through a wrapper on the same Monitor leaves the write
total at 3, not at 0; and a Write on it leaves the read total at 3. -/
theorem other_total_changes_counterexample :
    (∃ w1, crossMonitored.Read [0] freshWorld = some (w1, ([0], 5, none)) ∧
      writeTotal 0 freshWorld = some 0 ∧ writeTotal 0 w1 = some 3 ∧
      Counts 0 w1 = some (w1, (5, 3))) ∧
    (∃ w1, crossMonitored.Write [0] freshWorld = some (w1, (5, none)) ∧
      readTotal 0 freshWorld = some 0 ∧ readTotal 0 w1 = some 3 ∧
      Counts 0 w1 = some (w1, (3, 5))) :=
  ⟨⟨_, rfl, rfl, rfl, rfl⟩, ⟨_, rfl, rfl, rfl, rfl⟩⟩

/-- C10 (amended): the wrapper's own effect on the Monitor is the one counter
increment. `mConn.Read` changes the heap that the underlying call left only by
adding `uint64(n)` to the read counter of its Monitor, so the write total is
the one the underlying call left, and is the one before the call whenever the
underlying call itself completed no Write on a connection wrapped against the
same Monitor. Likewise `mConn.Write` and the read total. `NewMonitoredConn` and
`Counts` leave the whole state as it was. -/
theorem frame_of_operations {σ : Type} (mc : mConn σ) (b : Buf) (w : World σ)
    (mon : Monitor) (hm : w.heap[mc.m]? = some mon) :
    (∃ w1 mon1, mc.Read b w = some (w1, (callRead mc.Conn b w).2) ∧
        (callRead mc.Conn b w).1.heap[mc.m]? = some mon1 ∧
        w1.heap = (callRead mc.Conn b w).1.heap.set mc.m
          { mon1 with atomicReadBytes := AddUint64 mon1.atomicReadBytes (uint64 (callRead mc.Conn b w).2.2.1) } ∧
        writeTotal mc.m w1 = writeTotal mc.m (callRead mc.Conn b w).1 ∧
        (innerWrites mc.m (mc.Conn.Read w.env w.heap b).inner = [] →
          writeTotal mc.m w1 = some mon.atomicWriteBytes)) ∧
    (∃ w2 mon2, mc.Write b w = some (w2, (callWrite mc.Conn b w).2) ∧
        (callWrite mc.Conn b w).1.heap[mc.m]? = some mon2 ∧
        w2.heap = (callWrite mc.Conn b w).1.heap.set mc.m
          { mon2 with atomicWriteBytes := AddUint64 mon2.atomicWriteBytes (uint64 (callWrite mc.Conn b w).2.1) } ∧
        readTotal mc.m w2 = readTotal mc.m (callWrite mc.Conn b w).1 ∧
        (innerReads mc.m (mc.Conn.Write w.env w.heap b).inner = [] →
          readTotal mc.m w2 = some mon.atomicReadBytes)) ∧
    (∀ conn : Conn σ, (NewMonitoredConn conn mc.m w).1 = w) ∧
    Counts mc.m w = some (w, (mon.atomicReadBytes, mon.atomicWriteBytes)) := by
  have hlr := applyInner_lookup mc.m (mc.Conn.Read w.env w.heap b).inner w.heap mon hm
  have hlw := applyInner_lookup mc.m (mc.Conn.Write w.env w.heap b).inner w.heap mon hm
  refine ⟨⟨_, _, Read_eq mc b w mon hm, hlr, ?_, ?_, ?_⟩,
    ⟨_, _, Write_eq mc b w mon hm, hlw, ?_, ?_, ?_⟩, fun _ => rfl, ?_⟩
  · simp [callRead, addAll_append_one]
  · unfold writeTotal
    rw [counts_set _ _ mc.m _ _ hlr rfl]
    simp [Counts, callRead, hlr]
  · intro he
    unfold writeTotal
    rw [counts_set _ _ mc.m _ _ hlr rfl, he]
    rfl
  · simp [callWrite, addAll_append_one]
  · unfold readTotal
    rw [counts_set _ _ mc.m _ _ hlw rfl]
    simp [Counts, callWrite, hlw]
  · intro he
    unfold readTotal
    rw [counts_set _ _ mc.m _ _ hlw rfl, he]
    rfl
  · simp [Counts, hm]

/-- Witness of C10: on a Monitor holding `(10, 20)`, a Read reporting 7 gives
`(17, 20)` and a Write reporting 7 gives `(10, 27)`. -/
theorem frame_of_operations_witness :
    busyWorld.heap[partialConn.m]? = some ⟨10, 20, 42⟩ ∧
    innerWrites 0 (partialConn.Conn.Read busyWorld.env busyWorld.heap [1, 2, 3]).inner = [] ∧
    innerReads 0 (partialConn.Conn.Write busyWorld.env busyWorld.heap [1, 2, 3]).inner = [] ∧
    (partialConn.Read [1, 2, 3] busyWorld).map (fun r => r.1.heap) = some [⟨17, 20, 42⟩] ∧
    (partialConn.Write [1, 2, 3] busyWorld).map (fun r => r.1.heap) = some [⟨10, 27, 42⟩] ∧
    (∃ w1, partialConn.Read [1, 2, 3] busyWorld = some (w1, ([1, 2, 3], 7, some "EOF")) ∧
        writeTotal 0 w1 = some 20) ∧
    (∃ w2, partialConn.Write [1, 2, 3] busyWorld = some (w2, (7, some "EOF")) ∧
        readTotal 0 w2 = some 10) := by
  obtain ⟨⟨w1, _, h1, _, _, _, h2⟩, ⟨w2, _, h3, _, _, _, h4⟩, _, _⟩ :=
    frame_of_operations partialConn [1, 2, 3] busyWorld ⟨10, 20, 42⟩ rfl
  exact ⟨rfl, rfl, rfl, rfl, rfl, ⟨w1, h1, h2 rfl⟩, ⟨w2, h3, h4 rfl⟩⟩

/-! ## A fresh Monitor -/

theorem NewMonitor_lookup {σ : Type} (now : Time) (w : World σ) :
    (NewMonitor now w).1.heap[(NewMonitor now w).2]? = some ⟨0, 0, now⟩ :=
  List.getElem?_concat_length w.heap _

theorem wrapAll_world {σ : Type} (m : Nat) (conns : List (Conn σ)) :
    ∀ w : World σ, (wrapAll m conns w).1 = w := by
  induction conns with
  | nil => intro w; rfl
  | cons conn rest ih =>
    intro w
    show (wrapAll m rest (NewMonitoredConn conn m w).1).1 = w
    rw [ih]
    rfl

/-- C4: right after `NewMonitor`, and also after wrapping any list of
connections against the new Monitor with `NewMonitoredConn`, `Counts` returns
`(0, 0)`. -/
theorem fresh_monitor_counts_zero {σ : Type} (now : Time) (w : World σ)
    (conns : List (Conn σ)) :
    Counts (NewMonitor now w).2 (NewMonitor now w).1 = some ((NewMonitor now w).1, (0, 0)) ∧
    Counts (NewMonitor now w).2 (wrapAll (NewMonitor now w).2 conns (NewMonitor now w).1).1 =
      some ((wrapAll (NewMonitor now w).2 conns (NewMonitor now w).1).1, (0, 0)) := by
  have h : Counts (NewMonitor now w).2 (NewMonitor now w).1 =
      some ((NewMonitor now w).1, (0, 0)) := by
    simp [Counts, NewMonitor_lookup]
  refine ⟨h, ?_⟩
  rw [wrapAll_world]
  exact h

/-! ## Order of the two results of Counts -/

theorem Read_alone {σ : Type} (mc : mConn σ) (b : Buf) (w : World σ) (mon : Monitor)
    (hm : w.heap[mc.m]? = some mon)
    (hr : innerReads mc.m (mc.Conn.Read w.env w.heap b).inner = [])
    (hw : innerWrites mc.m (mc.Conn.Read w.env w.heap b).inner = []) :
    ∃ w1, mc.Read b w = some (w1, ((mc.Conn.Read w.env w.heap b).buf,
        (mc.Conn.Read w.env w.heap b).n, (mc.Conn.Read w.env w.heap b).err)) ∧
      w1.heap[mc.m]? = some ⟨AddUint64 mon.atomicReadBytes (uint64 (mc.Conn.Read w.env w.heap b).n),
        mon.atomicWriteBytes, mon.staticStartTime⟩ := by
  have hl := applyInner_lookup mc.m (mc.Conn.Read w.env w.heap b).inner w.heap mon hm
  refine ⟨_, Read_eq mc b w mon hm, ?_⟩
  simp only
  rw [getElem?_set_same _ mc.m _ _ hl, hr, hw]
  rfl

theorem Write_alone {σ : Type} (mc : mConn σ) (b : Buf) (w : World σ) (mon : Monitor)
    (hm : w.heap[mc.m]? = some mon)
    (hr : innerReads mc.m (mc.Conn.Write w.env w.heap b).inner = [])
    (hw : innerWrites mc.m (mc.Conn.Write w.env w.heap b).inner = []) :
    ∃ w1, mc.Write b w = some (w1, ((mc.Conn.Write w.env w.heap b).n,
        (mc.Conn.Write w.env w.heap b).err)) ∧
      w1.heap[mc.m]? = some ⟨mon.atomicReadBytes,
        AddUint64 mon.atomicWriteBytes (uint64 (mc.Conn.Write w.env w.heap b).n),
        mon.staticStartTime⟩ := by
  have hl := applyInner_lookup mc.m (mc.Conn.Write w.env w.heap b).inner w.heap mon hm
  refine ⟨_, Write_eq mc b w mon hm, ?_⟩
  simp only
  rw [getElem?_set_same _ mc.m _ _ hl, hr, hw]
  rfl

/-- C5: `Counts` returns `(bytes read, bytes written)`, in that order: the first
component is the read counter and the second the write counter. On a fresh
Monitor a single Write reporting 1000 bytes gives `(0, 1000)` and a following
single Read reporting 1000 bytes gives `(1000, 1000)`; single: the underlying
call completes no Read or Write of its own on a connection wrapped against the
same Monitor. -/
theorem counts_read_then_written {σ : Type} (now : Time) (w : World σ) (conn : Conn σ)
    (bw br : Buf) :
    (∀ (v : World σ) (m : Nat) (mon : Monitor), v.heap[m]? = some mon →
      Counts m v = some (v, (mon.atomicReadBytes, mon.atomicWriteBytes))) ∧
    (∀ rw, conn.Write w.env (NewMonitor now w).1.heap bw = rw → rw.n = 1000 →
      innerReads (NewMonitor now w).2 rw.inner = [] →
      innerWrites (NewMonitor now w).2 rw.inner = [] →
      ∃ w1, (NewMonitoredConn conn (NewMonitor now w).2 (NewMonitor now w).1).2.Write bw
          (NewMonitor now w).1 = some (w1, (1000, rw.err)) ∧
        Counts (NewMonitor now w).2 w1 = some (w1, (0, 1000)) ∧
        (∀ rr, conn.Read w1.env w1.heap br = rr → rr.n = 1000 →
          innerReads (NewMonitor now w).2 rr.inner = [] →
          innerWrites (NewMonitor now w).2 rr.inner = [] →
          ∃ w2, (NewMonitoredConn conn (NewMonitor now w).2 (NewMonitor now w).1).2.Read br w1 =
              some (w2, (rr.buf, 1000, rr.err)) ∧
            Counts (NewMonitor now w).2 w2 = some (w2, (1000, 1000)))) := by
  refine ⟨fun v m mon hv => by simp [Counts, hv], ?_⟩
  intro rw hrw hn hir hiw
  subst hrw
  have hk0 : AddUint64 0 (uint64 1000) = 1000 := by decide
  obtain ⟨w1, h1, h2⟩ := Write_alone (⟨conn, (NewMonitor now w).2⟩ : mConn σ) bw
    (NewMonitor now w).1 ⟨0, 0, now⟩ (NewMonitor_lookup now w) hir hiw
  have hn1 : (conn.Write (NewMonitor now w).1.env (NewMonitor now w).1.heap bw).n = 1000 := hn
  simp only [hn1, hk0] at h1 h2
  refine ⟨w1, h1, by simp [Counts, h2], ?_⟩
  intro rr hrr hnr hir2 hiw2
  subst hrr
  obtain ⟨w2, h3, h4⟩ := Read_alone (⟨conn, (NewMonitor now w).2⟩ : mConn σ) br w1
    ⟨0, 1000, now⟩ h2 hir2 hiw2
  simp only [hnr, hk0] at h3 h4
  exact ⟨w2, h3, by simp [Counts, h4]⟩

/-- Witness of C5: a connection reporting 1000 bytes on every call, with a
buffer of three bytes. -/
theorem counts_read_then_written_witness :
    ((fixedConn 1000 none).Write emptyWorld.env freshWorld.heap [1, 2, 3]).n = 1000 ∧
    innerReads 0 ((fixedConn 1000 none).Write emptyWorld.env freshWorld.heap [1, 2, 3]).inner
      = [] ∧
    innerWrites 0 ((fixedConn 1000 none).Write emptyWorld.env freshWorld.heap [1, 2, 3]).inner
      = [] ∧
    ∃ w1, kiloConn.Write [1, 2, 3] freshWorld = some (w1, (1000, none)) ∧
      Counts 0 w1 = some (w1, (0, 1000)) ∧
      ((fixedConn 1000 none).Read w1.env w1.heap [1, 2, 3]).n = 1000 ∧
      innerReads 0 ((fixedConn 1000 none).Read w1.env w1.heap [1, 2, 3]).inner = [] ∧
      innerWrites 0 ((fixedConn 1000 none).Read w1.env w1.heap [1, 2, 3]).inner = [] ∧
      ∃ w2, kiloConn.Read [1, 2, 3] w1 = some (w2, ([1, 2, 3], 1000, none)) ∧
        Counts 0 w2 = some (w2, (1000, 1000)) := by
  obtain ⟨w1, h1, h2, h3⟩ :=
    (counts_read_then_written 42 emptyWorld (fixedConn 1000 none) [1, 2, 3] [1, 2, 3]).2
      _ rfl rfl rfl rfl
  exact ⟨rfl, rfl, rfl, w1, h1, h2, rfl, rfl, rfl, h3 _ rfl rfl rfl rfl⟩

/-! ## The start time -/

theorem startTime_set (l : List Monitor) (q p : Nat) (mon x : Monitor)
    (hq : l[q]? = some mon) (hx : x.staticStartTime = mon.staticStartTime) :
    (l.set q x)[p]?.map Monitor.staticStartTime = l[p]?.map Monitor.staticStartTime := by
  by_cases hqp : q = p
  · subst hqp
    rw [getElem?_set_same l q mon x hq, hq]
    simp [hx]
  · rw [List.getElem?_set_ne hqp]

theorem applyInner_startTime (es : List Inner) (heap : List Monitor) (p : Nat) (t : Time)
    (hp : heap[p]?.map Monitor.staticStartTime = some t) :
    (applyInner es heap)[p]?.map Monitor.staticStartTime = some t := by
  cases hm : heap[p]? with
  | none => simp [hm] at hp
  | some monp =>
    simp only [hm, Option.map_some', Option.some.injEq] at hp
    rw [applyInner_lookup p es heap monp hm]
    simp [hp]

theorem exec_startTime {σ : Type} (c : Call σ) (w w1 : World σ) (p : Nat) (t : Time)
    (hc : c.exec w = some w1)
    (hp : w.heap[p]?.map Monitor.staticStartTime = some t) :
    w1.heap[p]?.map Monitor.staticStartTime = some t := by
  cases c with
  | NewMonitor now =>
    simp only [Call.exec, NewMonitor, Option.some.injEq] at hc
    subst hc
    have hlt : p < w.heap.length := by
      by_contra hcon
      rw [List.getElem?_eq_none (Nat.le_of_not_lt hcon)] at hp
      cases hp
    show (w.heap ++ _)[p]?.map Monitor.staticStartTime = some t
    rw [List.getElem?_append_left hlt]
    exact hp
  | NewMonitoredConn conn m =>
    simp only [Call.exec, NewMonitoredConn, Option.some.injEq] at hc
    subst hc
    exact hp
  | Read mc b =>
    cases hm2 : (applyInner (mc.Conn.Read w.env w.heap b).inner w.heap)[mc.m]? with
    | none => simp [Call.exec, mConn.Read, callRead, atomicAddReadBytes, hm2] at hc
    | some mon2 =>
      simp only [Call.exec, mConn.Read, callRead, atomicAddReadBytes, hm2, Option.map_some',
        Option.some.injEq] at hc
      subst hc
      refine (startTime_set _ mc.m p mon2 _ hm2 ?_).trans
        (applyInner_startTime _ w.heap p t hp)
      rfl
  | Write mc b =>
    cases hm2 : (applyInner (mc.Conn.Write w.env w.heap b).inner w.heap)[mc.m]? with
    | none => simp [Call.exec, mConn.Write, callWrite, atomicAddWriteBytes, hm2] at hc
    | some mon2 =>
      simp only [Call.exec, mConn.Write, callWrite, atomicAddWriteBytes, hm2, Option.map_some',
        Option.some.injEq] at hc
      subst hc
      refine (startTime_set _ mc.m p mon2 _ hm2 ?_).trans
        (applyInner_startTime _ w.heap p t hp)
      rfl
  | Counts m =>
    cases hm : w.heap[m]? with
    | none => simp [Call.exec, Counts, hm] at hc
    | some mon =>
      simp only [Call.exec, Counts, hm, Option.map_some', Option.some.injEq] at hc
      subst hc
      exact hp
  | StartTime m =>
    cases hm : w.heap[m]? with
    | none => simp [Call.exec, StartTime, hm] at hc
    | some mon =>
      simp only [Call.exec, StartTime, hm, Option.map_some', Option.some.injEq] at hc
      subst hc
      exact hp

theorem run_startTime {σ : Type} (calls : List (Call σ)) (p : Nat) (t : Time) :
    ∀ w w1 : World σ, run calls w = some w1 →
      w.heap[p]?.map Monitor.staticStartTime = some t →
      w1.heap[p]?.map Monitor.staticStartTime = some t := by
  induction calls with
  | nil =>
    intro w w1 hr hp
    simp only [run, Option.some.injEq] at hr
    subst hr
    exact hp
  | cons c cs ih =>
    intro w w1 hr hp
    cases hc : c.exec w with
    | none => simp [run, hc] at hr
    | some w2 =>
      simp only [run, hc] at hr
      exact ih w2 w1 hr (exec_startTime c w w2 p t hc hp)

theorem StartTime_of_lookup {σ : Type} (w : World σ) (p : Nat) (t : Time)
    (hp : w.heap[p]?.map Monitor.staticStartTime = some t) :
    StartTime p w = some (w, t) := by
  cases hm : w.heap[p]? with
  | none => simp [hm] at hp
  | some mon =>
    simp only [hm, Option.map_some', Option.some.injEq] at hp
    simp [StartTime, hm, hp]

/-- C8: `StartTime()` returns the clock value `now` that `NewMonitor` stored,
and still returns it after any sequence of `NewMonitor`, `NewMonitoredConn`,
`Read`, `Write`, `Counts` and `StartTime` operations that ran to completion,
on this Monitor or on others. -/
theorem start_time_fixed {σ : Type} (now : Time) (w : World σ) (calls : List (Call σ))
    (w1 : World σ) (hrun : run calls (NewMonitor now w).1 = some w1) :
    StartTime (NewMonitor now w).2 (NewMonitor now w).1 = some ((NewMonitor now w).1, now) ∧
    StartTime (NewMonitor now w).2 w1 = some (w1, now) := by
  have h0 : (NewMonitor now w).1.heap[(NewMonitor now w).2]?.map Monitor.staticStartTime =
      some now := by
    rw [NewMonitor_lookup]
    rfl
  exact ⟨StartTime_of_lookup _ _ _ h0,
    StartTime_of_lookup _ _ _ (run_startTime calls _ now _ w1 hrun h0)⟩

/-- Witness of C8: a Monitor created at time 42, then a sequence using every
operation, including a second Monitor created at time 99 and a Read on a doubly
wrapped connection. -/
theorem start_time_fixed_witness :
    ∃ w1, run sampleCalls (NewMonitor 42 emptyWorld).1 = some w1 ∧
      w1.heap = [⟨17, 1, 42⟩, ⟨5, 0, 99⟩] ∧
      StartTime 0 w1 = some (w1, 42) :=
  ⟨_, rfl, rfl, (start_time_fixed 42 emptyWorld sampleCalls _ rfl).2⟩

/-! ## Totals over a sequence of calls -/

theorem session_totals {σ : Type} (p : Nat) (calls : List (IOCall σ)) :
    ∀ (w : World σ) (rep : Reported) (mon : Monitor), w.heap[p]? = some mon →
      mon.atomicReadBytes = uint64 rep.reads.sum →
      mon.atomicWriteBytes = uint64 rep.writes.sum →
      ∃ w1 rep1, session p calls w rep = some (w1, rep1) ∧
        Counts p w1 = some (w1, (uint64 rep1.reads.sum, uint64 rep1.writes.sum)) := by
  induction calls with
  | nil =>
    intro w rep mon hm hr hw
    refine ⟨w, rep, rfl, ?_⟩
    simp [Counts, hm, hr, hw]
  | cons c cs ih =>
    intro w rep mon hm hr hw
    cases c with
    | Read conn b =>
      have hrd := Read_eq (⟨conn, p⟩ : mConn σ) b w mon hm
      have hl := applyInner_lookup p (conn.Read w.env w.heap b).inner w.heap mon hm
      simp only [session, NewMonitoredConn, hrd]
      refine ih _ _ _ (getElem?_set_same _ p _ _ hl) ?_ ?_
      · show addAll mon.atomicReadBytes _ = uint64 (List.sum (_ :: _))
        rw [hr, addAll_uint64]
        congr 1
        simp only [List.sum_cons, List.sum_append, List.sum_reverse, List.sum_nil]
        ring
      · show addAll mon.atomicWriteBytes _ = uint64 (List.sum (_ ++ _))
        rw [hw, addAll_uint64]
        congr 1
        simp only [List.sum_append, List.sum_reverse]
        ring
    | Write conn b =>
      have hwr := Write_eq (⟨conn, p⟩ : mConn σ) b w mon hm
      have hl := applyInner_lookup p (conn.Write w.env w.heap b).inner w.heap mon hm
      simp only [session, NewMonitoredConn, hwr]
      refine ih _ _ _ (getElem?_set_same _ p _ _ hl) ?_ ?_
      · show addAll mon.atomicReadBytes _ = uint64 (List.sum (_ ++ _))
        rw [hr, addAll_uint64]
        congr 1
        simp only [List.sum_append, List.sum_reverse]
        ring
      · show addAll mon.atomicWriteBytes _ = uint64 (List.sum (_ :: _))
        rw [hw, addAll_uint64]
        congr 1
        simp only [List.sum_cons, List.sum_append, List.sum_reverse, List.sum_nil]
        ring

/-- C3 as stated fails: on a fresh Monitor, three Reads each reporting
`2^63 - 1` bytes leave the read total at `2^63 - 3`, not at the sum
`3 * 2^63 - 3` of the reported counts. -/
theorem exact_sum_counterexample :
    ∃ w1 rep r, session 0 overflowCalls (NewMonitor 42 emptyWorld).1 ⟨[], []⟩ =
        some (w1, rep) ∧
      rep.reads = [maxInt, maxInt, maxInt] ∧
      readTotal 0 w1 = some r ∧ r = 2 ^ 63 - 3 ∧ (r : Int) ≠ rep.reads.sum :=
  ⟨_, _, _, rfl, rfl, rfl, by decide, by decide⟩

/-- C3 (amended): for a Monitor created by `NewMonitor` and any finite sequence
of completed Read and Write calls on connections wrapped against it with
`NewMonitoredConn`, every call completes and `Counts()` afterwards returns the
sum of the `n` values returned by the Read calls reduced modulo `2^64` and the
sum of the `n` values returned by the Write calls reduced modulo `2^64`; each
equals the exact sum whenever that sum lies in `[0, 2^64)`. The calls include
those that an underlying connection itself completes on connections wrapped
against the Monitor. -/
theorem counts_are_sums_mod {σ : Type} (now : Time) (w : World σ)
    (calls : List (IOCall σ)) :
    ∃ w1 rep r wr, session (NewMonitor now w).2 calls (NewMonitor now w).1 ⟨[], []⟩ =
        some (w1, rep) ∧
      Counts (NewMonitor now w).2 w1 = some (w1, (r, wr)) ∧
      (r : Int) = rep.reads.sum % 2 ^ 64 ∧ (wr : Int) = rep.writes.sum % 2 ^ 64 ∧
      (0 ≤ rep.reads.sum → rep.reads.sum < 2 ^ 64 → (r : Int) = rep.reads.sum) ∧
      (0 ≤ rep.writes.sum → rep.writes.sum < 2 ^ 64 → (wr : Int) = rep.writes.sum) := by
  obtain ⟨w1, rep, hs, hc⟩ := session_totals (NewMonitor now w).2 calls (NewMonitor now w).1
    ⟨[], []⟩ ⟨0, 0, now⟩ (NewMonitor_lookup now w) rfl rfl
  refine ⟨w1, rep, _, _, hs, hc, uint64_cast _, uint64_cast _, ?_, ?_⟩
  · intro h0 h1
    rw [uint64_cast, Int.emod_eq_of_lt h0 h1]
  · intro h0 h1
    rw [uint64_cast, Int.emod_eq_of_lt h0 h1]

/-- Witness of C3: Reads reporting 7 (with an error) and 5 bytes and a Write
reporting 1000 bytes, on three connections sharing a fresh Monitor. -/
theorem counts_are_sums_mod_witness :
    ∃ w1 rep r wr, session 0 mixedCalls freshWorld ⟨[], []⟩ = some (w1, rep) ∧
      Counts 0 w1 = some (w1, (r, wr)) ∧
      rep = ⟨[5, 7], [1000]⟩ ∧
      (0 : Int) ≤ rep.reads.sum ∧ rep.reads.sum < 2 ^ 64 ∧
      (0 : Int) ≤ rep.writes.sum ∧ rep.writes.sum < 2 ^ 64 ∧
      (r : Int) = 12 ∧ (wr : Int) = 1000 := by
  obtain ⟨w1, rep, r, wr, hs, hc, _, _, hr, hw⟩ := counts_are_sums_mod 42 emptyWorld mixedCalls
  have e : session 0 mixedCalls freshWorld ⟨[], []⟩ = some (w1, rep) := hs
  have e0 : session 0 mixedCalls freshWorld ⟨[], []⟩ = some (_, ⟨[5, 7], [1000]⟩) := rfl
  rw [e0] at e
  simp only [Option.some.injEq, Prod.mk.injEq] at e
  have hrep : rep = ⟨[5, 7], [1000]⟩ := e.2.symm
  subst hrep
  exact ⟨w1, _, r, wr, hs, hc, rfl, by decide, by decide, by decide, by decide,
    hr (by decide) (by decide), hw (by decide) (by decide)⟩

/-- The same on connections that go through wrappers themselves: a Read on a
doubly wrapped connection reporting 5 and a Write reporting 5 on a connection
that reads 3 bytes through a wrapper give the totals `(13, 5)`, the sums of the
counts of all the completed calls. -/
theorem nested_calls_totals :
    (session 0 nestedCalls freshWorld ⟨[], []⟩).map (fun r => (r.1.heap, r.2)) =
      some ([⟨13, 5, 42⟩], ⟨[3, 5, 5], [5]⟩) := rfl

/-! ## Order of the underlying call and the addition -/

/-- C9 as stated fails: on a fresh Monitor with a connection reporting 5 bytes,
the log shows the call on the underlying connection first, made while the
Monitor still holds `(0, 0)`, and the atomic addition of 5 after it; the totals
are `(5, 0)` after the Read and `(0, 5)` after the Write. -/
theorem counted_before_call_counterexample :
    (fiveByteConn.Read [0, 0, 0, 0, 0, 0, 0, 0] freshWorld).map
        (fun r => (r.1.trace, r.1.heap)) =
      some ([Event.connRead [0, 0, 0, 0, 0, 0, 0, 0] [⟨0, 0, 42⟩], Event.addRead 0 5],
            [⟨5, 0, 42⟩]) ∧
    (fiveByteConn.Write [0, 0, 0, 0, 0, 0, 0, 0] freshWorld).map
        (fun r => (r.1.trace, r.1.heap)) =
      some ([Event.connWrite [0, 0, 0, 0, 0, 0, 0, 0] [⟨0, 0, 42⟩], Event.addWrite 0 5],
            [⟨0, 5, 42⟩]) :=
  ⟨rfl, rfl⟩

/-- C9 (amended): `mConn.Read` calls Read on the underlying Conn first and
counts the bytes after that call has returned: the underlying `Conn.Read` is
invoked on the state in which `mConn.Read` was called, where the Monitor still
holds the read total it had, and the count `n` that the call reported is then
added to the state the call left. Likewise `mConn.Write` with `Conn.Write` and
the write total. -/
theorem addition_after_underlying_call {σ : Type} (mc : mConn σ) (b : Buf) (w : World σ)
    (mon : Monitor) (hm : w.heap[mc.m]? = some mon) :
    (∃ w1, mc.Read b w = some (w1, (callRead mc.Conn b w).2) ∧
        (callRead mc.Conn b w).1.trace = w.trace ++ [Event.connRead b w.heap] ∧
        readTotal mc.m w = some mon.atomicReadBytes ∧
        atomicAddReadBytes mc.m (uint64 (callRead mc.Conn b w).2.2.1) (callRead mc.Conn b w).1 =
          some w1 ∧
        w1.trace = w.trace ++ [Event.connRead b w.heap,
          Event.addRead mc.m (uint64 (callRead mc.Conn b w).2.2.1)]) ∧
    (∃ w2, mc.Write b w = some (w2, (callWrite mc.Conn b w).2) ∧
        (callWrite mc.Conn b w).1.trace = w.trace ++ [Event.connWrite b w.heap] ∧
        writeTotal mc.m w = some mon.atomicWriteBytes ∧
        atomicAddWriteBytes mc.m (uint64 (callWrite mc.Conn b w).2.1) (callWrite mc.Conn b w).1 =
          some w2 ∧
        w2.trace = w.trace ++ [Event.connWrite b w.heap,
          Event.addWrite mc.m (uint64 (callWrite mc.Conn b w).2.1)]) := by
  have hlr := applyInner_lookup mc.m (mc.Conn.Read w.env w.heap b).inner w.heap mon hm
  have hlw := applyInner_lookup mc.m (mc.Conn.Write w.env w.heap b).inner w.heap mon hm
  refine ⟨⟨_, Read_eq mc b w mon hm, rfl, by simp [readTotal, Counts, hm], ?_, rfl⟩,
    ⟨_, Write_eq mc b w mon hm, rfl, by simp [writeTotal, Counts, hm], ?_, rfl⟩⟩
  · simp [callRead, atomicAddReadBytes, hlr, addAll_append_one]
  · simp [callWrite, atomicAddWriteBytes, hlw, addAll_append_one]

/-- Witness of C9: on a Monitor holding `(10, 20)`, a connection reporting 7
bytes and an error. -/
theorem addition_after_underlying_call_witness :
    busyWorld.heap[partialConn.m]? = some ⟨10, 20, 42⟩ ∧
    (∃ w1, partialConn.Read [1, 2, 3] busyWorld = some (w1, ([1, 2, 3], 7, some "EOF")) ∧
        (callRead partialConn.Conn [1, 2, 3] busyWorld).1.trace =
          [Event.connRead [1, 2, 3] [⟨10, 20, 42⟩]] ∧
        readTotal 0 busyWorld = some 10 ∧
        atomicAddReadBytes 0 7 (callRead partialConn.Conn [1, 2, 3] busyWorld).1 = some w1 ∧
        w1.trace = [Event.connRead [1, 2, 3] [⟨10, 20, 42⟩], Event.addRead 0 7]) ∧
    (∃ w2, partialConn.Write [1, 2, 3] busyWorld = some (w2, (7, some "EOF")) ∧
        (callWrite partialConn.Conn [1, 2, 3] busyWorld).1.trace =
          [Event.connWrite [1, 2, 3] [⟨10, 20, 42⟩]] ∧
        writeTotal 0 busyWorld = some 20 ∧
        atomicAddWriteBytes 0 7 (callWrite partialConn.Conn [1, 2, 3] busyWorld).1 = some w2 ∧
        w2.trace = [Event.connWrite [1, 2, 3] [⟨10, 20, 42⟩], Event.addWrite 0 7]) :=
  ⟨rfl, addition_after_underlying_call partialConn [1, 2, 3] busyWorld ⟨10, 20, 42⟩ rfl⟩

end connmonitor
